import Mathlib

/-!
Verification of the gVisor iptables packet-filtering engine
(`pkg/tcpip/iptables/iptables.go`).

The engine's traversal algorithm (`Check`, `checkTable`, `checkRule`) and
the construction helpers (`DefaultTables`, `EmptyFilterTable`) are embedded
directly from the Go source.  The supporting declarations that live outside
the evaluated core (the `Hook`, verdict, `Table`, `Rule`, `IPTables` types
from `types.go`, the concrete targets from `targets.go`, and the packet
abstraction from the surrounding stack) are modelled from the spec, as noted
on each such definition.

Go panics (out-of-range slice indexing, the explicit `panic` calls on
configuration-invariant violations) are modelled by `Option`: a `none`
result means the Go code would have panicked; `some v` means it returned
the value `v`.
-/

namespace iptables

/-- Modelled from the spec: the closed set of stack interception points
(`Hook` in `types.go`, outside src): Prerouting, Input, Forward, Output,
Postrouting. -/
inductive Hook where
  | Prerouting
  | Input
  | Forward
  | Output
  | Postrouting
  deriving DecidableEq, Repr

/-- Modelled from the spec: the rule-level verdicts (`RuleVerdict` in
`types.go`, outside src): Accept, Drop, Continue, Return. -/
inductive RuleVerdict where
  | RuleAccept
  | RuleDrop
  | RuleContinue
  | RuleReturn
  deriving DecidableEq, Repr

/-- Modelled from the spec: the table-level verdicts (`TableVerdict` in
`types.go`, outside src): Accept and Drop are the only two outcomes a
table may report to the engine. -/
inductive TableVerdict where
  | TableAccept
  | TableDrop
  deriving DecidableEq, Repr

/-- Modelled from the spec: the packet value consumed from the surrounding
network stack (`tcpip.PacketBuffer` plus the `header` package, outside
src).  The engine reads exactly one thing from it: the transport protocol
derived from the already-parsed network header
(`header.IPv4(pkt.NetworkHeader).TransportProtocol()` in the source). -/
structure PacketBuffer where
  TransportProtocol : Nat
  deriving DecidableEq, Repr

/-- Modelled from the spec: the matcher capability
(`Match(hook, packet, interface) -> (matches, hot_drop)`), a read-only
predicate over the packet with a hot-drop escape hatch. -/
structure Matcher where
  Match : Hook → PacketBuffer → String → Bool × Bool

/-- Modelled from the spec: the target capability
(`Action(packet) -> RuleVerdict`; the Go interface also returns a chain
name string, unused by the core). -/
structure Target where
  Action : PacketBuffer → RuleVerdict × String

/-- Modelled from the spec: the rule header filter; the core consults only
its protocol constraint (`Filter.Protocol`, zero meaning unconstrained). -/
structure IPHeaderFilter where
  Protocol : Nat := 0
  deriving DecidableEq, Repr

/-- Modelled from the spec: a `Rule` is a header filter, an ordered list of
matchers, and a single target.  Field defaults mirror Go zero values
(`Rule{Target: ...}` leaves the filter zero and the matchers nil). -/
structure Rule where
  Filter : IPHeaderFilter := {}
  Matchers : List Matcher := []
  Target : Target

/-- Modelled from the spec: a `Table` is an ordered rule list plus per-hook
entry (`BuiltinChains`) and default-policy (`Underflows`) indices and a
reserved user-chain map.  Go maps are modelled as association lists with
Go lookup semantics (`goMapGet` below). -/
structure Table where
  Rules : List Rule
  BuiltinChains : List (Hook × Int)
  Underflows : List (Hook × Int)
  UserChains : List (String × Int)

/-- Modelled from the spec: the engine state: all tables by name plus the
per-hook ordered list of table names to consult. -/
structure IPTables where
  Tables : List (String × Table)
  Priorities : List (Hook × List String)

/-- Go map read `m[k]`: the stored value when the key is present, the given
zero value otherwise. -/
def goMapGet {κ β : Type} [DecidableEq κ] (zero : β) (m : List (κ × β)) (k : κ) : β :=
  match m with
  | [] => zero
  | (k', v) :: rest => if k' = k then v else goMapGet zero rest k

/-- Go map presence test: `some v` when key `k` is stored with value `v`,
`none` when absent. -/
def goMapFind? {κ β : Type} [DecidableEq κ] (m : List (κ × β)) (k : κ) : Option β :=
  match m with
  | [] => none
  | (k', v) :: rest => if k' = k then some v else goMapFind? rest k

/-- Go slice read `xs[i]` with an `int` index: `none` models the
index-out-of-range panic (negative or past the end). -/
def goIndex {α : Type} (xs : List α) (i : Int) : Option α :=
  if 0 ≤ i then xs[i.toNat]? else none

/-- The Go zero value of `Table` (nil slice, nil maps), which is what
`it.Tables[tablename]` yields for an unknown table name. -/
def zeroTable : Table :=
  { Rules := [], BuiltinChains := [], Underflows := [], UserChains := [] }

-- Table names (iptables.go).
def TablenameNat : String := "nat"
def TablenameMangle : String := "mangle"
def TablenameFilter : String := "filter"

/-- HookUnset indicates that there is no hook set for an entrypoint or
underflow (iptables.go). -/
def HookUnset : Int := -1

/-- Modelled from the spec: the unconditional-accept target
(`AcceptTarget` in `targets.go`, outside src). -/
def AcceptTarget : Target :=
  { Action := fun _ => (RuleVerdict.RuleAccept, "") }

/-- Modelled from the spec: the unconditional-drop target
(`DropTarget` in `targets.go`, outside src). -/
def DropTarget : Target :=
  { Action := fun _ => (RuleVerdict.RuleDrop, "") }

/-- Modelled from the spec: the error placeholder target (`ErrorTarget` in
`targets.go`, outside src), a rule-construction sentinel that a valid chain
never reaches; if reached its action resolves fail-closed to Drop. -/
def ErrorTarget : Target :=
  { Action := fun _ => (RuleVerdict.RuleDrop, "") }

/-- `DefaultTables` (iptables.go lines 48-117): a default set of tables;
each chain is set to accept all packets.  Each table's rule list ends in
the error sentinel, and every builtin-chain and underflow index points at
an accept rule. -/
def DefaultTables : IPTables :=
  { Tables := [
      (TablenameNat,
        { Rules := [
            { Target := AcceptTarget },
            { Target := AcceptTarget },
            { Target := AcceptTarget },
            { Target := AcceptTarget },
            { Target := ErrorTarget } ],
          BuiltinChains := [
            (Hook.Prerouting, 0),
            (Hook.Input, 1),
            (Hook.Output, 2),
            (Hook.Postrouting, 3) ],
          Underflows := [
            (Hook.Prerouting, 0),
            (Hook.Input, 1),
            (Hook.Output, 2),
            (Hook.Postrouting, 3) ],
          UserChains := [] }),
      (TablenameMangle,
        { Rules := [
            { Target := AcceptTarget },
            { Target := AcceptTarget },
            { Target := ErrorTarget } ],
          BuiltinChains := [
            (Hook.Prerouting, 0),
            (Hook.Output, 1) ],
          Underflows := [
            (Hook.Prerouting, 0),
            (Hook.Output, 1) ],
          UserChains := [] }),
      (TablenameFilter,
        { Rules := [
            { Target := AcceptTarget },
            { Target := AcceptTarget },
            { Target := AcceptTarget },
            { Target := ErrorTarget } ],
          BuiltinChains := [
            (Hook.Input, 0),
            (Hook.Forward, 1),
            (Hook.Output, 2) ],
          Underflows := [
            (Hook.Input, 0),
            (Hook.Forward, 1),
            (Hook.Output, 2) ],
          UserChains := [] }) ],
    Priorities := [
      (Hook.Input, [TablenameNat, TablenameFilter]),
      (Hook.Prerouting, [TablenameMangle, TablenameNat]),
      (Hook.Output, [TablenameMangle, TablenameNat, TablenameFilter]) ] }

/-- `EmptyFilterTable` (iptables.go lines 121-136): a table with no rules
and the filter table chains (Input, Forward, Output) mapped to
`HookUnset`. -/
def EmptyFilterTable : Table :=
  { Rules := [],
    BuiltinChains := [
      (Hook.Input, HookUnset),
      (Hook.Forward, HookUnset),
      (Hook.Output, HookUnset) ],
    Underflows := [
      (Hook.Input, HookUnset),
      (Hook.Forward, HookUnset),
      (Hook.Output, HookUnset) ],
    UserChains := [] }

/-- The matcher loop and target dispatch at the end of `checkRule`
(iptables.go lines 221-235): each matcher in declared order, hot-drop
forcing Drop, a non-match forcing Continue, and the target's action verdict
returned verbatim once every matcher matched. -/
def checkMatchers (hook : Hook) (pkt : PacketBuffer) (matchers : List Matcher)
    (target : Target) : RuleVerdict :=
  match matchers with
  | [] => (target.Action pkt).1
  | matcher :: rest =>
    let mh := matcher.Match hook pkt ""
    if mh.2 then RuleVerdict.RuleDrop
    else if !mh.1 then RuleVerdict.RuleContinue
    else checkMatchers hook pkt rest target

/-- `checkRule` (iptables.go lines 212-236): fetch the rule (a bad index is
a Go panic, hence `none`), apply the header protocol filter, then run the
matchers and the target. -/
def checkRule (hook : Hook) (pkt : PacketBuffer) (table : Table) (ruleIdx : Int) :
    Option RuleVerdict :=
  match goIndex table.Rules ruleIdx with
  | none => none
  | some rule =>
    if rule.Filter.Protocol ≠ 0 ∧ rule.Filter.Protocol ≠ pkt.TransportProtocol then
      some RuleVerdict.RuleContinue
    else
      some (checkMatchers hook pkt rule.Matchers rule.Target)

/-- The rule-walking loop of `checkTable` (iptables.go lines 171-204),
parameterised by the current `ruleIdx`.  Accept/Drop decide the table;
Continue advances; Return consults the underflow rule's target, whose only
legal results are Accept and Drop (anything else is the Go panic, `none`);
falling off the end of the rule list yields the fail-closed Drop. -/
def checkTableFrom (hook : Hook) (pkt : PacketBuffer) (table : Table) (ruleIdx : Int) :
    Option TableVerdict :=
  if _h : ruleIdx < (table.Rules.length : Int) then
    match checkRule hook pkt table ruleIdx with
    | none => none
    | some RuleVerdict.RuleAccept => some TableVerdict.TableAccept
    | some RuleVerdict.RuleDrop => some TableVerdict.TableDrop
    | some RuleVerdict.RuleContinue => checkTableFrom hook pkt table (ruleIdx + 1)
    | some RuleVerdict.RuleReturn =>
      match goIndex table.Rules (goMapGet 0 table.Underflows hook) with
      | none => none
      | some underflow =>
        match (underflow.Target.Action pkt).1 with
        | RuleVerdict.RuleAccept => some TableVerdict.TableAccept
        | RuleVerdict.RuleDrop => some TableVerdict.TableDrop
        | RuleVerdict.RuleContinue => none
        | RuleVerdict.RuleReturn => none
  else
    some TableVerdict.TableDrop
  termination_by ((table.Rules.length : Int) + 1 - ruleIdx).toNat
  decreasing_by omega

/-- `checkTable` (iptables.go lines 167-209): look the table up by name and
walk its rules starting from the hook's builtin-chain entry index. -/
def checkTable (it : IPTables) (hook : Hook) (pkt : PacketBuffer) (tablename : String) :
    Option TableVerdict :=
  let table := goMapGet zeroTable it.Tables tablename
  checkTableFrom hook pkt table (goMapGet 0 table.BuiltinChains hook)

/-- The table loop of `Check` (iptables.go lines 149-160) over the ordered
table names of the hook's priority list: Accept moves on, Drop is final. -/
def checkLoop (it : IPTables) (hook : Hook) (pkt : PacketBuffer) :
    List String → Option Bool
  | [] => some true
  | tablename :: rest =>
    match checkTable it hook pkt tablename with
    | none => none
    | some TableVerdict.TableAccept => checkLoop it hook pkt rest
    | some TableVerdict.TableDrop => some false

/-- `Check` (iptables.go lines 143-164): run the packet through each table
of `Priorities[hook]` in order; `some true` means the packet continues,
`some false` that it is dropped, `none` a Go panic. -/
def Check (it : IPTables) (hook : Hook) (pkt : PacketBuffer) : Option Bool :=
  checkLoop it hook pkt (goMapGet [] it.Priorities hook)

/-- Modelled from the spec: a target whose action yields the Return verdict
("end of built-in chain, defer to the underflow policy"). -/
def ReturnTarget : Target :=
  { Action := fun _ => (RuleVerdict.RuleReturn, "") }

/-! Concrete configurations used to exercise the theorems below. -/

/-- A sample packet carrying transport protocol 17 (UDP). -/
def wPkt : PacketBuffer := { TransportProtocol := 17 }

/-- A matcher that always matches. -/
def mTrue : Matcher := { Match := fun _ _ _ => (true, false) }

/-- A matcher that never matches (and does not hot-drop). -/
def mFalse : Matcher := { Match := fun _ _ _ => (false, false) }

/-- A matcher that matches but signals hot-drop. -/
def mHot : Matcher := { Match := fun _ _ _ => (true, true) }

/-- A rule constrained to protocol 6 (TCP) with an accept target. -/
def wProtoRule : Rule := { Filter := { Protocol := 6 }, Target := AcceptTarget }

/-- An unconditional accept rule. -/
def wAcceptRule : Rule := { Target := AcceptTarget }

/-- An unconditional drop rule. -/
def wDropRule : Rule := { Target := DropTarget }

/-- A table whose single rule is protocol-filtered, wired into Input. -/
def wTableProto : Table :=
  { Rules := [wProtoRule],
    BuiltinChains := [(Hook.Input, 0)],
    Underflows := [(Hook.Input, 0)],
    UserChains := [] }

/-- An engine holding only `wTableProto` on Input. -/
def wITProto : IPTables :=
  { Tables := [("filter", wTableProto)], Priorities := [(Hook.Input, ["filter"])] }

/-- An all-accept one-rule table wired into Input. -/
def wTableAccept : Table :=
  { Rules := [wAcceptRule],
    BuiltinChains := [(Hook.Input, 0)],
    Underflows := [(Hook.Input, 0)],
    UserChains := [] }

/-- An all-drop one-rule table wired into Input. -/
def wTableDrop : Table :=
  { Rules := [wDropRule],
    BuiltinChains := [(Hook.Input, 0)],
    Underflows := [(Hook.Input, 0)],
    UserChains := [] }

/-- A misconfigured table whose Input entry index is negative, so checking
it would hit the Go index-out-of-range panic (`none`). -/
def wTableBad : Table :=
  { Rules := [wAcceptRule],
    BuiltinChains := [(Hook.Input, -5)],
    Underflows := [(Hook.Input, 0)],
    UserChains := [] }

/-- An engine whose Input priority list is accept, then drop, then a table
that would panic if it were ever consulted. -/
def wIT2 : IPTables :=
  { Tables := [("acc", wTableAccept), ("drp", wTableDrop), ("bad", wTableBad)],
    Priorities := [(Hook.Input, ["acc", "drp", "bad"])] }

/-- An engine holding the empty filter table and an empty Input priority
list (the "no filter installed" scenario). -/
def wIT2e : IPTables :=
  { Tables := [("filter", EmptyFilterTable)], Priorities := [(Hook.Input, [])] }

/-- A rule whose second matcher hot-drops. -/
def wRuleHot : Rule := { Matchers := [mTrue, mHot, mFalse], Target := AcceptTarget }

/-- A rule whose second matcher reports no-match. -/
def wRuleNoMatch : Rule := { Matchers := [mTrue, mFalse, mHot], Target := AcceptTarget }

/-- A rule all of whose matchers match, with a drop target. -/
def wRuleAllMatch : Rule := { Matchers := [mTrue, mTrue], Target := DropTarget }

/-- A bare table holding only `wRuleHot`. -/
def wT3a : Table :=
  { Rules := [wRuleHot], BuiltinChains := [], Underflows := [], UserChains := [] }

/-- A bare table holding only `wRuleNoMatch`. -/
def wT3b : Table :=
  { Rules := [wRuleNoMatch], BuiltinChains := [], Underflows := [], UserChains := [] }

/-- A bare table holding only `wRuleAllMatch`. -/
def wT3c : Table :=
  { Rules := [wRuleAllMatch], BuiltinChains := [], Underflows := [], UserChains := [] }

/-- A table that reaches a Return rule after a filtered-out rule, with an
accept underflow at index 2. -/
def wT4 : Table :=
  { Rules := [wProtoRule, { Target := ReturnTarget }, wAcceptRule],
    BuiltinChains := [(Hook.Input, 0)],
    Underflows := [(Hook.Input, 2)],
    UserChains := [] }

/-- An engine holding only `wT4` on Input. -/
def wIT4 : IPTables :=
  { Tables := [("t4", wT4)], Priorities := [(Hook.Input, ["t4"])] }

/-- A two-rule table: a protocol-filtered rule then an accept rule. -/
def wT5 : Table :=
  { Rules := [wProtoRule, wAcceptRule],
    BuiltinChains := [(Hook.Input, 0)],
    Underflows := [(Hook.Input, 1)],
    UserChains := [] }

/-- A well-formed engine satisfying the configuration invariant on Input. -/
def wIT6 : IPTables :=
  { Tables := [("f6", wTableAccept)], Priorities := [(Hook.Input, ["f6"])] }

/-- A rule with an unconstrained (zero) protocol filter and a non-matching
matcher. -/
def wRule10 : Rule := { Matchers := [mFalse], Target := AcceptTarget }

/-- A bare table holding only `wRule10`. -/
def wT10 : Table :=
  { Rules := [wRule10], BuiltinChains := [], Underflows := [], UserChains := [] }

/-! General lemmas about the embedding. -/

/-- A successful Go slice read implies the index is in range. -/
theorem goIndex_some_bounds {α : Type} {xs : List α} {i : Int} {a : α}
    (h : goIndex xs i = some a) : 0 ≤ i ∧ i < (xs.length : Int) := by
  unfold goIndex at h
  by_cases h0 : 0 ≤ i
  · rw [if_pos h0] at h
    have hlt : i.toNat < xs.length := by
      by_contra hge
      rw [List.getElem?_eq_none (by omega)] at h
      exact Option.noConfusion h
    exact ⟨h0, by omega⟩
  · rw [if_neg h0] at h
    exact Option.noConfusion h

/-- An in-range index makes the Go slice read succeed. -/
theorem goIndex_of_lt {α : Type} (xs : List α) {i : Int} (h0 : 0 ≤ i)
    (hlt : i < (xs.length : Int)) : ∃ a, goIndex xs i = some a := by
  unfold goIndex
  rw [if_pos h0]
  exact ⟨xs[i.toNat], List.getElem?_eq_getElem (by omega)⟩

/-- A rule verdict is only produced for an in-range rule index. -/
theorem checkRule_some_bounds {hook : Hook} {pkt : PacketBuffer} {table : Table}
    {ruleIdx : Int} {v : RuleVerdict}
    (h : checkRule hook pkt table ruleIdx = some v) :
    0 ≤ ruleIdx ∧ ruleIdx < (table.Rules.length : Int) := by
  unfold checkRule at h
  cases hg : goIndex table.Rules ruleIdx with
  | none => rw [hg] at h; exact Option.noConfusion h
  | some rule => exact goIndex_some_bounds hg

/-- An in-range rule index always produces a rule verdict. -/
theorem checkRule_isSome_of_lt (hook : Hook) (pkt : PacketBuffer) (table : Table)
    {ruleIdx : Int} (h0 : 0 ≤ ruleIdx) (hlt : ruleIdx < (table.Rules.length : Int)) :
    (checkRule hook pkt table ruleIdx).isSome := by
  obtain ⟨rule, hr⟩ := goIndex_of_lt table.Rules h0 hlt
  simp only [checkRule, hr]
  split <;> rfl

/-- Walking a table from an index at or past the end of the rule list
yields the fail-closed Drop. -/
theorem checkTableFrom_of_ge (hook : Hook) (pkt : PacketBuffer) (table : Table)
    {ruleIdx : Int} (h : (table.Rules.length : Int) ≤ ruleIdx) :
    checkTableFrom hook pkt table ruleIdx = some TableVerdict.TableDrop := by
  rw [checkTableFrom.eq_def]
  rw [dif_neg (not_lt.mpr h)]

/-- A rule that accepts decides the table at once. -/
theorem checkTableFrom_step_accept (hook : Hook) (pkt : PacketBuffer) (table : Table)
    {ruleIdx : Int} (hlt : ruleIdx < (table.Rules.length : Int))
    (hc : checkRule hook pkt table ruleIdx = some RuleVerdict.RuleAccept) :
    checkTableFrom hook pkt table ruleIdx = some TableVerdict.TableAccept := by
  rw [checkTableFrom.eq_def]
  rw [dif_pos hlt, hc]

/-- A rule that drops decides the table at once. -/
theorem checkTableFrom_step_drop (hook : Hook) (pkt : PacketBuffer) (table : Table)
    {ruleIdx : Int} (hlt : ruleIdx < (table.Rules.length : Int))
    (hc : checkRule hook pkt table ruleIdx = some RuleVerdict.RuleDrop) :
    checkTableFrom hook pkt table ruleIdx = some TableVerdict.TableDrop := by
  rw [checkTableFrom.eq_def]
  rw [dif_pos hlt, hc]

/-- A rule that continues advances the walk to the next index. -/
theorem checkTableFrom_step_continue (hook : Hook) (pkt : PacketBuffer) (table : Table)
    {ruleIdx : Int} (hlt : ruleIdx < (table.Rules.length : Int))
    (hc : checkRule hook pkt table ruleIdx = some RuleVerdict.RuleContinue) :
    checkTableFrom hook pkt table ruleIdx = checkTableFrom hook pkt table (ruleIdx + 1) := by
  conv_lhs => rw [checkTableFrom.eq_def]
  rw [dif_pos hlt, hc]

/-- A rule that returns hands the decision to the underflow rule's target:
Accept and Drop translate to the table verdict, anything else (or a bad
underflow index) is the Go panic. -/
theorem checkTableFrom_step_return (hook : Hook) (pkt : PacketBuffer) (table : Table)
    {ruleIdx : Int} (hlt : ruleIdx < (table.Rules.length : Int))
    (hc : checkRule hook pkt table ruleIdx = some RuleVerdict.RuleReturn) :
    checkTableFrom hook pkt table ruleIdx =
      match goIndex table.Rules (goMapGet 0 table.Underflows hook) with
      | none => none
      | some underflow =>
        match (underflow.Target.Action pkt).1 with
        | RuleVerdict.RuleAccept => some TableVerdict.TableAccept
        | RuleVerdict.RuleDrop => some TableVerdict.TableDrop
        | RuleVerdict.RuleContinue => none
        | RuleVerdict.RuleReturn => none := by
  conv_lhs => rw [checkTableFrom.eq_def]
  rw [dif_pos hlt, hc]

/-- If every rule from `idx` to the end of the rule list continues, the
walk exhausts the list and yields the fail-closed Drop (induction on the
number of remaining rules). -/
theorem checkTableFrom_all_continue (hook : Hook) (pkt : PacketBuffer) (table : Table) :
    ∀ (n : Nat) (idx : Int), (((table.Rules.length : Int) + 1 - idx).toNat ≤ n) →
      (∀ i : Int, idx ≤ i → i < (table.Rules.length : Int) →
        checkRule hook pkt table i = some RuleVerdict.RuleContinue) →
      checkTableFrom hook pkt table idx = some TableVerdict.TableDrop := by
  intro n
  induction n with
  | zero =>
    intro idx hle _
    exact checkTableFrom_of_ge hook pkt table (by omega)
  | succ n ih =>
    intro idx hle hcont
    by_cases hlt : idx < (table.Rules.length : Int)
    · rw [checkTableFrom_step_continue hook pkt table hlt (hcont idx le_rfl hlt)]
      exact ih (idx + 1) (by omega) (fun i h1 h2 => hcont i (by omega) h2)
    · exact checkTableFrom_of_ge hook pkt table (le_of_not_lt hlt)

/-- If every rule strictly before `tIdx` continues, the walk started at
`start` reaches `tIdx` unchanged (induction on the distance). -/
theorem checkTableFrom_advance (hook : Hook) (pkt : PacketBuffer) (table : Table) :
    ∀ (n : Nat) (start tIdx : Int), ((tIdx - start).toNat ≤ n) → start ≤ tIdx →
      (∀ i : Int, start ≤ i → i < tIdx →
        checkRule hook pkt table i = some RuleVerdict.RuleContinue) →
      checkTableFrom hook pkt table start = checkTableFrom hook pkt table tIdx := by
  intro n
  induction n with
  | zero =>
    intro start tIdx hle hst _
    have heq : start = tIdx := by omega
    rw [heq]
  | succ n ih =>
    intro start tIdx hle hst hcont
    rcases eq_or_lt_of_le hst with heq | hlt
    · rw [heq]
    · have hc := hcont start le_rfl hlt
      have hb := checkRule_some_bounds hc
      rw [checkTableFrom_step_continue hook pkt table hb.2 hc]
      exact ih (start + 1) tIdx (by omega) (by omega) (fun i h1 h2 => hcont i (by omega) h2)

/-- Under a well-formed underflow, the rule walk never panics (induction on
the number of remaining rules). -/
theorem checkTableFrom_isSome (hook : Hook) (pkt : PacketBuffer) (table : Table)
    (hunder : ∃ u, goIndex table.Rules (goMapGet 0 table.Underflows hook) = some u ∧
      ((u.Target.Action pkt).1 = RuleVerdict.RuleAccept ∨
       (u.Target.Action pkt).1 = RuleVerdict.RuleDrop)) :
    ∀ (n : Nat) (idx : Int), (((table.Rules.length : Int) + 1 - idx).toNat ≤ n) →
      0 ≤ idx → (checkTableFrom hook pkt table idx).isSome := by
  intro n
  induction n with
  | zero =>
    intro idx hle h0
    rw [checkTableFrom_of_ge hook pkt table (by omega)]
    rfl
  | succ n ih =>
    intro idx hle h0
    by_cases hlt : idx < (table.Rules.length : Int)
    · obtain ⟨v, hv⟩ :=
        Option.isSome_iff_exists.mp (checkRule_isSome_of_lt hook pkt table h0 hlt)
      cases v with
      | RuleAccept => rw [checkTableFrom_step_accept hook pkt table hlt hv]; rfl
      | RuleDrop => rw [checkTableFrom_step_drop hook pkt table hlt hv]; rfl
      | RuleContinue =>
        rw [checkTableFrom_step_continue hook pkt table hlt hv]
        exact ih (idx + 1) (by omega) (by omega)
      | RuleReturn =>
        rw [checkTableFrom_step_return hook pkt table hlt hv]
        obtain ⟨u, hu, hud⟩ := hunder
        rcases hud with h | h <;> simp [hu, h]
    · rw [checkTableFrom_of_ge hook pkt table (le_of_not_lt hlt)]
      rfl

/-- If every table of the list accepts, the table loop returns `true`. -/
theorem checkLoop_all_accept (it : IPTables) (hook : Hook) (pkt : PacketBuffer) :
    ∀ names : List String,
      (∀ tn ∈ names, checkTable it hook pkt tn = some TableVerdict.TableAccept) →
      checkLoop it hook pkt names = some true := by
  intro names
  induction names with
  | nil => intro _; rfl
  | cons t rest ih =>
    intro h
    unfold checkLoop
    rw [h t (List.mem_cons_self t rest)]
    exact ih (fun tn htn => h tn (List.mem_cons_of_mem t htn))

/-- If every table before `d` accepts and `d` drops, the table loop
returns `false` whatever comes after `d`. -/
theorem checkLoop_first_drop (it : IPTables) (hook : Hook) (pkt : PacketBuffer) :
    ∀ (pre : List String) (d : String) (post : List String),
      (∀ tn ∈ pre, checkTable it hook pkt tn = some TableVerdict.TableAccept) →
      checkTable it hook pkt d = some TableVerdict.TableDrop →
      checkLoop it hook pkt (pre ++ d :: post) = some false := by
  intro pre
  induction pre with
  | nil =>
    intro d post _ hd
    rw [List.nil_append]
    unfold checkLoop
    rw [hd]
  | cons t rest ih =>
    intro d post h hd
    rw [List.cons_append]
    unfold checkLoop
    rw [h t (List.mem_cons_self t rest)]
    exact ih d post (fun tn htn => h tn (List.mem_cons_of_mem t htn)) hd

/-- If every table of the list produces a verdict, the table loop does not
panic. -/
theorem checkLoop_isSome (it : IPTables) (hook : Hook) (pkt : PacketBuffer) :
    ∀ names : List String,
      (∀ tn ∈ names, (checkTable it hook pkt tn).isSome) →
      (checkLoop it hook pkt names).isSome := by
  intro names
  induction names with
  | nil => intro _; rfl
  | cons t rest ih =>
    intro h
    unfold checkLoop
    obtain ⟨v, hv⟩ := Option.isSome_iff_exists.mp (h t (List.mem_cons_self t rest))
    rw [hv]
    cases v with
    | TableAccept => exact ih (fun tn htn => h tn (List.mem_cons_of_mem t htn))
    | TableDrop => rfl

/-- A rule whose header filter passes hands evaluation to its matchers and
target. -/
theorem checkRule_filter_pass (hook : Hook) (pkt : PacketBuffer) (table : Table)
    (ruleIdx : Int) (rule : Rule)
    (hrule : goIndex table.Rules ruleIdx = some rule)
    (hfilter : rule.Filter.Protocol = 0 ∨ rule.Filter.Protocol = pkt.TransportProtocol) :
    checkRule hook pkt table ruleIdx =
      some (checkMatchers hook pkt rule.Matchers rule.Target) := by
  simp only [checkRule, hrule]
  rw [if_neg (by rcases hfilter with h | h <;> simp [h])]

/-- Matchers that match (without hot-drop) are skipped over by the matcher
loop. -/
theorem checkMatchers_skip_matched (hook : Hook) (pkt : PacketBuffer) (target : Target) :
    ∀ (pre rest : List Matcher),
      (∀ m ∈ pre, m.Match hook pkt "" = (true, false)) →
      checkMatchers hook pkt (pre ++ rest) target = checkMatchers hook pkt rest target := by
  intro pre
  induction pre with
  | nil => intro rest _; rw [List.nil_append]
  | cons m pre ih =>
    intro rest h
    rw [List.cons_append]
    simp only [checkMatchers, h m (List.mem_cons_self m pre)]
    exact ih rest (fun m' hm' => h m' (List.mem_cons_of_mem m hm'))

/-! The claims. -/

/-- Claim C1: for every hook, packet, and table, if traversal starting at
`BuiltinChains[hook]` evaluates every rule from there to the end of the
rule list to Continue (no Accept, Drop, or Return), then `checkTable`
returns the table-level Drop verdict — the fail-closed default. -/
theorem checkTable_exhausted_is_drop (it : IPTables) (hook : Hook) (pkt : PacketBuffer)
    (tablename : String)
    (hcont : ∀ i : Int,
      goMapGet 0 (goMapGet zeroTable it.Tables tablename).BuiltinChains hook ≤ i →
      i < ((goMapGet zeroTable it.Tables tablename).Rules.length : Int) →
      checkRule hook pkt (goMapGet zeroTable it.Tables tablename) i =
        some RuleVerdict.RuleContinue) :
    checkTable it hook pkt tablename = some TableVerdict.TableDrop := by
  simp only [checkTable]
  exact checkTableFrom_all_continue hook pkt _ _ _ le_rfl hcont

/-- Claim C1 witness: a single TCP-only rule against a UDP packet makes
every rule continue, and the table verdict is Drop. -/
theorem checkTable_exhausted_is_drop_witness :
    checkTable wITProto Hook.Input wPkt "filter" = some TableVerdict.TableDrop := by
  apply checkTable_exhausted_is_drop
  intro i h1 h2
  simp [wITProto, wTableProto, goMapGet, zeroTable] at h1 h2
  have hi : i = 0 := by omega
  subst hi
  decide

/-- Claim C2: `Check` consults the tables named in `Priorities[hook]` in
list order — with every table before `d` accepting and `d` dropping, it
returns false whatever comes after `d`; and when every listed table
accepts (vacuously for the empty list) it returns true. -/
theorem Check_tables_in_order (it : IPTables) (hook : Hook) (pkt : PacketBuffer) :
    (∀ (pre : List String) (d : String) (post : List String),
      goMapGet [] it.Priorities hook = pre ++ d :: post →
      (∀ tn ∈ pre, checkTable it hook pkt tn = some TableVerdict.TableAccept) →
      checkTable it hook pkt d = some TableVerdict.TableDrop →
      Check it hook pkt = some false)
    ∧ ((∀ tn ∈ goMapGet [] it.Priorities hook,
        checkTable it hook pkt tn = some TableVerdict.TableAccept) →
      Check it hook pkt = some true) := by
  constructor
  · intro pre d post hsplit hpre hd
    simp only [Check]
    rw [hsplit]
    exact checkLoop_first_drop it hook pkt pre d post hpre hd
  · intro h
    simp only [Check]
    exact checkLoop_all_accept it hook pkt _ h

/-- Claim C2 witness: with priorities [acc, drp, bad] on Input, `Check`
returns false — the `bad` table, which would panic if consulted, is never
reached; and with an empty Input priority list, `Check` returns true. -/
theorem Check_tables_in_order_witness :
    Check wIT2 Hook.Input wPkt = some false ∧ Check wIT2e Hook.Input wPkt = some true := by
  constructor
  · apply (Check_tables_in_order wIT2 Hook.Input wPkt).1 ["acc"] "drp" ["bad"]
    · rfl
    · intro tn htn
      simp at htn
      subst htn
      simp [checkTable, wIT2, wTableAccept, wAcceptRule, goMapGet, zeroTable,
        checkTableFrom.eq_def, checkRule, goIndex, checkMatchers, AcceptTarget]
    · simp [checkTable, wIT2, wTableDrop, wDropRule, goMapGet, zeroTable,
        checkTableFrom.eq_def, checkRule, goIndex, checkMatchers, DropTarget]
  · apply (Check_tables_in_order wIT2e Hook.Input wPkt).2
    intro tn htn
    simp [wIT2e, goMapGet] at htn

/-- Claim C3: for a rule whose header filter passes, `checkRule` evaluates
the matchers in declared order: after any run of matching matchers, a
hot-drop forces Drop at once (whatever its match flag, the later matchers,
or the target), a plain no-match forces Continue at once, and the target's
verdict is returned verbatim exactly when every matcher matches. -/
theorem checkRule_matcher_order (hook : Hook) (pkt : PacketBuffer) (table : Table)
    (ruleIdx : Int) (rule : Rule)
    (hrule : goIndex table.Rules ruleIdx = some rule)
    (hfilter : rule.Filter.Protocol = 0 ∨ rule.Filter.Protocol = pkt.TransportProtocol) :
    (∀ (pre : List Matcher) (m : Matcher) (post : List Matcher),
      rule.Matchers = pre ++ m :: post →
      (∀ m' ∈ pre, m'.Match hook pkt "" = (true, false)) →
      (((m.Match hook pkt "").2 = true →
        checkRule hook pkt table ruleIdx = some RuleVerdict.RuleDrop)
      ∧ (m.Match hook pkt "" = (false, false) →
        checkRule hook pkt table ruleIdx = some RuleVerdict.RuleContinue)))
    ∧ ((∀ m ∈ rule.Matchers, m.Match hook pkt "" = (true, false)) →
      checkRule hook pkt table ruleIdx = some ((rule.Target.Action pkt).1)) := by
  constructor
  · intro pre m post hsplit hpre
    rw [checkRule_filter_pass hook pkt table ruleIdx rule hrule hfilter, hsplit,
      checkMatchers_skip_matched hook pkt rule.Target pre (m :: post) hpre]
    constructor
    · intro hhot
      simp [checkMatchers, hhot]
    · intro hnm
      simp [checkMatchers, hnm]
  · intro hall
    rw [checkRule_filter_pass hook pkt table ruleIdx rule hrule hfilter,
      ← List.append_nil rule.Matchers,
      checkMatchers_skip_matched hook pkt rule.Target rule.Matchers [] hall]
    rfl

/-- Claim C3 witness: a mid-list hot-drop yields Drop even though the
matcher matched and the target would accept, a mid-list no-match yields
Continue without reaching the hot-drop matcher after it, and all-matching
matchers yield the drop target's verdict verbatim. -/
theorem checkRule_matcher_order_witness :
    checkRule Hook.Input wPkt wT3a 0 = some RuleVerdict.RuleDrop ∧
    checkRule Hook.Input wPkt wT3b 0 = some RuleVerdict.RuleContinue ∧
    checkRule Hook.Input wPkt wT3c 0 = some RuleVerdict.RuleDrop := by
  refine ⟨?_, ?_, ?_⟩
  · exact ((checkRule_matcher_order Hook.Input wPkt wT3a 0 wRuleHot rfl (Or.inl rfl)).1
      [mTrue] mHot [mFalse] rfl (by intro m' hm'; simp at hm'; subst hm'; rfl)).1 rfl
  · exact ((checkRule_matcher_order Hook.Input wPkt wT3b 0 wRuleNoMatch rfl (Or.inl rfl)).1
      [mTrue] mFalse [mHot] rfl (by intro m' hm'; simp at hm'; subst hm'; rfl)).2 rfl
  · exact (checkRule_matcher_order Hook.Input wPkt wT3c 0 wRuleAllMatch rfl (Or.inl rfl)).2
      (by intro m hm; simp [wRuleAllMatch] at hm; subst hm; rfl)

/-- Claim C4: if the rule reached by the traversal yields Return, the
table verdict is decided by the target of the rule at `Underflows[hook]`
alone (its filter and matchers are never consulted): Accept and Drop
translate to the table-level verdict, and any other underflow result is
the fatal invariant-violation panic, not a packet outcome. -/
theorem checkTable_return_underflow (it : IPTables) (hook : Hook) (pkt : PacketBuffer)
    (tablename : String) (ruleIdx : Int) (u : Rule)
    (hstart : goMapGet 0 (goMapGet zeroTable it.Tables tablename).BuiltinChains hook ≤ ruleIdx)
    (hcont : ∀ i : Int,
      goMapGet 0 (goMapGet zeroTable it.Tables tablename).BuiltinChains hook ≤ i →
      i < ruleIdx →
      checkRule hook pkt (goMapGet zeroTable it.Tables tablename) i =
        some RuleVerdict.RuleContinue)
    (hret : checkRule hook pkt (goMapGet zeroTable it.Tables tablename) ruleIdx =
      some RuleVerdict.RuleReturn)
    (hu : goIndex (goMapGet zeroTable it.Tables tablename).Rules
      (goMapGet 0 (goMapGet zeroTable it.Tables tablename).Underflows hook) = some u) :
    checkTable it hook pkt tablename =
      match (u.Target.Action pkt).1 with
      | RuleVerdict.RuleAccept => some TableVerdict.TableAccept
      | RuleVerdict.RuleDrop => some TableVerdict.TableDrop
      | RuleVerdict.RuleContinue => none
      | RuleVerdict.RuleReturn => none := by
  simp only [checkTable]
  rw [checkTableFrom_advance hook pkt (goMapGet zeroTable it.Tables tablename)
    (ruleIdx - goMapGet 0 (goMapGet zeroTable it.Tables tablename).BuiltinChains hook).toNat
    (goMapGet 0 (goMapGet zeroTable it.Tables tablename).BuiltinChains hook) ruleIdx
    le_rfl hstart hcont]
  rw [checkTableFrom_step_return hook pkt _ (checkRule_some_bounds hret).2 hret]
  simp [hu]

/-- Claim C4 witness: the walk of `wT4` skips the TCP-only rule on a UDP
packet, reaches the Return rule at index 1, and the accept underflow at
index 2 makes the table accept. -/
theorem checkTable_return_underflow_witness :
    checkTable wIT4 Hook.Input wPkt "t4" = some TableVerdict.TableAccept := by
  apply checkTable_return_underflow wIT4 Hook.Input wPkt "t4" 1 wAcceptRule
  · simp [wIT4, wT4, goMapGet, zeroTable]
  · intro i h1 h2
    simp [wIT4, wT4, goMapGet, zeroTable] at h1
    have hi : i = 0 := by omega
    subst hi
    decide
  · decide
  · rfl

/-- Claim C5: a rule whose protocol constraint is set and differs from the
packet's transport protocol makes `checkRule` return Continue at once —
its matchers and target play no part — and the table walk then advances
to the next rule. -/
theorem checkRule_protocol_mismatch (hook : Hook) (pkt : PacketBuffer) (table : Table)
    (ruleIdx : Int) (rule : Rule)
    (hrule : goIndex table.Rules ruleIdx = some rule)
    (hproto : rule.Filter.Protocol ≠ 0)
    (hne : rule.Filter.Protocol ≠ pkt.TransportProtocol) :
    checkRule hook pkt table ruleIdx = some RuleVerdict.RuleContinue
    ∧ (ruleIdx < (table.Rules.length : Int) →
      checkTableFrom hook pkt table ruleIdx = checkTableFrom hook pkt table (ruleIdx + 1)) := by
  have hc : checkRule hook pkt table ruleIdx = some RuleVerdict.RuleContinue := by
    simp only [checkRule, hrule]
    rw [if_pos ⟨hproto, hne⟩]
  exact ⟨hc, fun hlt => checkTableFrom_step_continue hook pkt table hlt hc⟩

/-- Claim C5 witness: the TCP-only rule at index 0 of `wT5` is skipped on
a UDP packet and the walk advances to index 1. -/
theorem checkRule_protocol_mismatch_witness :
    checkRule Hook.Input wPkt wT5 0 = some RuleVerdict.RuleContinue ∧
    checkTableFrom Hook.Input wPkt wT5 0 = checkTableFrom Hook.Input wPkt wT5 1 := by
  have h := checkRule_protocol_mismatch Hook.Input wPkt wT5 0 wProtoRule rfl
    (by decide) (by decide)
  exact ⟨h.1, h.2 (by decide)⟩

/-- Claim C6: under the configuration invariant — every table listed for
the hook has a valid non-negative builtin-chain index into its rules and
an underflow index holding an unconditional rule whose target yields only
Accept or Drop — `Check`, `checkTable`, and `checkRule` never index out
of range and never reach a panic branch: every consulted table produces a
verdict and `Check` produces a boolean. -/
theorem Check_no_panic (it : IPTables) (hook : Hook) (pkt : PacketBuffer)
    (hinv : ∀ tn ∈ goMapGet [] it.Priorities hook,
      0 ≤ goMapGet 0 (goMapGet zeroTable it.Tables tn).BuiltinChains hook ∧
      goMapGet 0 (goMapGet zeroTable it.Tables tn).BuiltinChains hook <
        ((goMapGet zeroTable it.Tables tn).Rules.length : Int) ∧
      ∃ u, goIndex (goMapGet zeroTable it.Tables tn).Rules
          (goMapGet 0 (goMapGet zeroTable it.Tables tn).Underflows hook) = some u ∧
        u.Filter.Protocol = 0 ∧ u.Matchers = [] ∧
        ((u.Target.Action pkt).1 = RuleVerdict.RuleAccept ∨
         (u.Target.Action pkt).1 = RuleVerdict.RuleDrop)) :
    (∀ tn ∈ goMapGet [] it.Priorities hook, (checkTable it hook pkt tn).isSome)
    ∧ (Check it hook pkt).isSome := by
  have htab : ∀ tn ∈ goMapGet [] it.Priorities hook, (checkTable it hook pkt tn).isSome := by
    intro tn htn
    obtain ⟨h0, hlen, u, hu, hP, hM, hud⟩ := hinv tn htn
    simp only [checkTable]
    exact checkTableFrom_isSome hook pkt _ ⟨u, hu, hud⟩ _ _ le_rfl h0
  exact ⟨htab, checkLoop_isSome it hook pkt _ htab⟩

/-- Claim C6 witness: the well-formed engine `wIT6` panics nowhere on
Input. -/
theorem Check_no_panic_witness :
    (∀ tn ∈ goMapGet [] wIT6.Priorities Hook.Input,
      (checkTable wIT6 Hook.Input wPkt tn).isSome)
    ∧ (Check wIT6 Hook.Input wPkt).isSome := by
  apply Check_no_panic
  intro tn htn
  simp [wIT6, goMapGet] at htn
  subst htn
  exact ⟨by decide, by decide, wAcceptRule, rfl, rfl, rfl, Or.inl rfl⟩

/-- Claim C7: with the tables built by `DefaultTables`, `Check` accepts
every packet at every hook — each rule reached has no filter and no
matchers and each consulted table accepts. -/
theorem DefaultTables_Check_true (hook : Hook) (pkt : PacketBuffer) :
    Check DefaultTables hook pkt = some true := by
  cases hook <;>
    simp [Check, checkLoop, checkTable, DefaultTables, TablenameNat, TablenameMangle,
      TablenameFilter, goMapGet, zeroTable, checkTableFrom.eq_def, checkRule, goIndex,
      checkMatchers, AcceptTarget, ErrorTarget]

/-- Claim C8 counterexample: `EmptyFilterTable` does not map Prerouting or
Postrouting to `HookUnset`: those hooks are absent from its maps, so the
Go zero-value lookup yields 0, not -1. -/
theorem EmptyFilterTable_prerouting_not_unset :
    goMapGet 0 EmptyFilterTable.BuiltinChains Hook.Prerouting ≠ HookUnset ∧
    goMapFind? EmptyFilterTable.BuiltinChains Hook.Prerouting = none ∧
    goMapGet 0 EmptyFilterTable.Underflows Hook.Postrouting ≠ HookUnset ∧
    goMapFind? EmptyFilterTable.Underflows Hook.Postrouting = none := by
  decide

/-- Claim C8 (amended): `EmptyFilterTable` has an empty rule list; its
`BuiltinChains` and `Underflows` map exactly the three filter hooks
(Input, Forward, Output) to `HookUnset` (-1), and Prerouting and
Postrouting are absent from both maps. -/
theorem EmptyFilterTable_shape :
    EmptyFilterTable.Rules = [] ∧
    goMapFind? EmptyFilterTable.BuiltinChains Hook.Input = some HookUnset ∧
    goMapFind? EmptyFilterTable.BuiltinChains Hook.Forward = some HookUnset ∧
    goMapFind? EmptyFilterTable.BuiltinChains Hook.Output = some HookUnset ∧
    goMapFind? EmptyFilterTable.BuiltinChains Hook.Prerouting = none ∧
    goMapFind? EmptyFilterTable.BuiltinChains Hook.Postrouting = none ∧
    goMapFind? EmptyFilterTable.Underflows Hook.Input = some HookUnset ∧
    goMapFind? EmptyFilterTable.Underflows Hook.Forward = some HookUnset ∧
    goMapFind? EmptyFilterTable.Underflows Hook.Output = some HookUnset ∧
    goMapFind? EmptyFilterTable.Underflows Hook.Prerouting = none ∧
    goMapFind? EmptyFilterTable.Underflows Hook.Postrouting = none :=
  ⟨rfl, rfl, rfl, rfl, rfl, rfl, rfl, rfl, rfl, rfl, rfl⟩

/-- Claim C9: `DefaultTables` wires exactly Input to [nat, filter],
Prerouting to [mangle, nat], and Output to [mangle, nat, filter], in those
orders, with no priority list for Forward or Postrouting. -/
theorem DefaultTables_priorities_exact :
    goMapFind? DefaultTables.Priorities Hook.Input = some [TablenameNat, TablenameFilter] ∧
    goMapFind? DefaultTables.Priorities Hook.Prerouting =
      some [TablenameMangle, TablenameNat] ∧
    goMapFind? DefaultTables.Priorities Hook.Output =
      some [TablenameMangle, TablenameNat, TablenameFilter] ∧
    goMapFind? DefaultTables.Priorities Hook.Forward = none ∧
    goMapFind? DefaultTables.Priorities Hook.Postrouting = none :=
  ⟨rfl, rfl, rfl, rfl, rfl⟩

/-- Claim C10: a rule whose header-filter protocol is 0 carries no
protocol constraint: for every hook and packet, `checkRule` skips the
filter test and hands evaluation straight to the matchers. -/
theorem checkRule_zero_protocol (hook : Hook) (pkt : PacketBuffer) (table : Table)
    (ruleIdx : Int) (rule : Rule)
    (hrule : goIndex table.Rules ruleIdx = some rule)
    (hzero : rule.Filter.Protocol = 0) :
    checkRule hook pkt table ruleIdx =
      some (checkMatchers hook pkt rule.Matchers rule.Target) :=
  checkRule_filter_pass hook pkt table ruleIdx rule hrule (Or.inl hzero)

/-- Claim C10 witness: the unconstrained rule's matcher is consulted even
though the packet is UDP — the non-matching matcher makes `checkRule`
yield Continue. -/
theorem checkRule_zero_protocol_witness :
    checkRule Hook.Input wPkt wT10 0 = some RuleVerdict.RuleContinue :=
  checkRule_zero_protocol Hook.Input wPkt wT10 0 wRule10 rfl rfl

end iptables
